import Mathlib

/-!
Verification development for the store-credit core of the ht-community
repository: the submission, extraction, decision, review and ledger
pipeline.

The embedding translates the TypeScript sources:
* the server AI credit calculator and its fallback (services/aiService.ts,
  function processWithAI);
* the Claude voice adapter and its fallback
  (services/claudeVoiceService.ts, ClaudeVoiceService.processVoiceInput);
* the manual-form credit calculator
  (ManualCreditSubmissionScreen, calculateEstimatedCredit);
* the credit routes (routes of the credit router: submit, submit-processed,
  balance, admin review) acting on the Prisma data model
  (CreditSubmission, StoreCredit).

Money and confidence values are rationals; JavaScript number semantics
that matter (Math.round, the falsy behaviour of the logical-or operator on
0, empty strings and undefined) are modelled explicitly.  The money
columns of the schema (claimed_amount, approved_amount and
store_credits.amount) are DECIMAL(8,2): writing them rounds to cents and
overflows beyond 999,999.99, which the routes surface as a 500 with no
row written; this storage step is modelled at every insert (pgAmount).
The confidence column is DECIMAL(3,2); its storage rounding is not
modelled, since every claim concerns the pre-storage decision value or
the unit-interval range, which that rounding preserves.  Opaque JSON
audit blobs (the processedData column and the aiAnalysis metadata) carry
no logic and are not modelled.  Database writes are modelled as pure
state transitions on a DB value; a thrown AppError is an Except.error and
produces no state change, matching the source where every throw happens
before the corresponding write.
-/

namespace HTCredit

/-! ## JavaScript semantics helpers -/

/-- Math.round: round half toward positive infinity. -/
def jsRound (q : ℚ) : ℤ := ⌊q + 1/2⌋

/-- Math.round of (q * 100) divided by 100: round to cents, as in
the sources. -/
def roundCents (q : ℚ) : ℚ := (jsRound (q * 100) : ℚ) / 100

/-- JavaScript logical-or on an optional number: undefined and 0 are
falsy, so both select the default. -/
def jsQOr (x : Option ℚ) (d : ℚ) : ℚ :=
  match x with
  | none => d
  | some v => if v = 0 then d else v

/-- JavaScript logical-or on an optional string: undefined and the empty
string are falsy, so both select the default. -/
def jsStrOr (x : Option String) (d : String) : String :=
  match x with
  | none => d
  | some s => if s = "" then d else s

/-- Characters are listed with the head named so the function is
structurally recursive: does the first list start with the second. -/
def charStartsWith : List Char → List Char → Bool
  | _, [] => true
  | [], _ :: _ => false
  | a :: as, b :: bs => a == b && charStartsWith as bs

/-- Substring containment on character lists (String.prototype.includes). -/
def charsContain : List Char → List Char → Bool
  | [], needle => needle.isEmpty
  | c :: t, needle => charStartsWith (c :: t) needle || charsContain t needle

/-- String.prototype.includes. -/
def strIncludes (hay needle : String) : Bool := charsContain hay.data needle.data

/-- String.prototype.toLowerCase restricted to the ASCII range the
sources compare against. -/
def jsToLower (s : String) : String := ⟨s.data.map Char.toLower⟩

/-- String.prototype.trim. -/
def jsTrim (s : String) : String :=
  ⟨((s.data.dropWhile Char.isWhitespace).reverse.dropWhile Char.isWhitespace).reverse⟩

/-- String.prototype.split on a character predicate, keeping empty
segments, as JavaScript split on a character class does. -/
def splitChars (p : Char → Bool) : List Char → List Char → List String
  | [], acc => [⟨acc.reverse⟩]
  | c :: rest, acc =>
      if p c then ⟨acc.reverse⟩ :: splitChars p rest []
      else splitChars p rest (c :: acc)

def jsSplit (s : String) (p : Char → Bool) : List String := splitChars p s.data []

/-- Does the string contain the character. -/
def strHasChar (s : String) (c : Char) : Bool := s.data.contains c

/-! ## Assistance categories and rate tables (services/aiService.ts) -/

inductive AssistanceType where
  | recommendation
  | assistance
  | consultation
  | problem_solving
deriving DecidableEq, BEq, Repr

/-- ASSISTANCE_TYPES rate table: 3, 7, 12 and 18 percent.  The
manual-form screen repeats the same four rates verbatim in its own
assistanceTypes array. -/
def rate : AssistanceType → ℚ
  | .recommendation => 3/100
  | .assistance => 7/100
  | .consultation => 12/100
  | .problem_solving => 18/100

/-- defaultCredits: fixed base amounts used when no sale value is known. -/
def defaultCredit : AssistanceType → ℚ
  | .recommendation => 2
  | .assistance => 5
  | .consultation => 10
  | .problem_solving => 15

/-- The wire string for a category, used in ledger descriptions. -/
def assistanceTypeStr : AssistanceType → String
  | .recommendation => "recommendation"
  | .assistance => "assistance"
  | .consultation => "consultation"
  | .problem_solving => "problem_solving"

/-! ## Server AI credit calculator (processWithAI) -/

/-- The fields of the parsed JSON that the deterministic part of
processWithAI reads.  A missing or unparseable field is none; the
category is none when the model supplied no (or an unknown) category, in
which case the source falls back to recommendation both for the stored
type and for the rate and default lookups. -/
structure AIData where
  assistanceType : Option AssistanceType
  confidenceScore : Option ℚ
  estimatedSaleValue : Option ℚ
  reasoning : Option String
deriving Repr

structure AIResult where
  assistanceType : AssistanceType
  confidenceScore : ℚ
  estimatedCredit : ℚ
  reasoning : String
deriving DecidableEq, Repr

/-- The deterministic tail of processWithAI once the model response has
been parsed: clamp the confidence into the 0.1 to 1.0 band, floor the
sale value at 0, compute the credit from the rate table or the default
amounts, scale by confidence, cap at 50 dollars and round to cents
exactly once. -/
def processWithAIok (d : AIData) : AIResult :=
  let t := d.assistanceType.getD .recommendation
  let conf := max (1/10) (min 1 (jsQOr d.confidenceScore (1/2)))
  let sale := max 0 (jsQOr d.estimatedSaleValue 0)
  let base := if 0 < sale then sale * rate t else defaultCredit t
  let credit := min (base * conf) 50
  ⟨t, conf, roundCents credit, jsStrOr d.reasoning "AI analysis completed"⟩

/-- The catch branch of processWithAI: the fixed fallback result. -/
def aiFallback : AIResult :=
  ⟨.recommendation, 3/10, 1, "Fallback processing due to AI service error"⟩

/-- processWithAI, with the external OpenAI call and the JSON parse
modelled as an Except value: any failure (timeout, missing response,
malformed JSON) reaches the single catch and yields the fallback. -/
def processWithAI : Except String AIData → AIResult
  | .error _ => aiFallback
  | .ok d => processWithAIok d

/-! ## Claude voice adapter (ClaudeVoiceService.processVoiceInput) -/

structure VoiceAnalysis where
  assistanceType : AssistanceType
  confidence : ℚ
  estimatedCredit : ℚ
  needsMoreInfo : Bool
  followUpQuestions : List String
deriving DecidableEq, Repr

/-- extractStructuredData: keyword scan over the lowercased model reply.
The source initialises the triple to recommendation, 0.6 and 2 and
overwrites it in an if chain that checks consultation keywords first,
then problem-solving, then assistance.  Question extraction mirrors the
global regex that matches the runs between periods and exclamation marks
that contain a question mark, trimmed. -/
def extractStructuredData (claudeResponse : String) : VoiceAnalysis :=
  let lower := jsToLower claudeResponse
  let base : AssistanceType × ℚ × ℚ :=
    if strIncludes lower "consultation" || strIncludes lower "explained" ||
        strIncludes lower "educated" then
      (.consultation, 8/10, 8)
    else if strIncludes lower "problem" || strIncludes lower "solved" ||
        strIncludes lower "custom" then
      (.problem_solving, 9/10, 12)
    else if strIncludes lower "helped" || strIncludes lower "assisted" ||
        strIncludes lower "guided" then
      (.assistance, 3/4, 5)
    else
      (.recommendation, 3/5, 2)
  let needsMoreInfo :=
    strHasChar claudeResponse ('?') || strIncludes lower "tell me more" ||
      strIncludes lower "what time" || strIncludes lower "which product"
  let questions :=
    if needsMoreInfo then
      ((jsSplit claudeResponse (fun c => c == ('.') || c == ('!'))).filter
        (fun s => strHasChar s ('?'))).map jsTrim
    else []
  ⟨base.1, base.2.1, base.2.2, needsMoreInfo, questions⟩

/-- makeConversational: collapse every whitespace run to a single space
and trim, as the chained replace and trim calls do. -/
def makeConversational (text : String) : String :=
  String.intercalate " " ((jsSplit text (fun c => c.isWhitespace)).filter
    (fun s => s ≠ ""))

structure ClaudeVoiceResult where
  assistanceType : AssistanceType
  confidenceScore : ℚ
  estimatedCredit : ℚ
  needsFollowUp : Bool
  followUpQuestions : Option (List String)
  conversationalResponse : String
  shouldSpeak : Bool
deriving DecidableEq, Repr

/-- The catch branch of processVoiceInput: note that needsFollowUp is
false here, and followUpQuestions is left undefined. -/
def voiceFallback : ClaudeVoiceResult :=
  ⟨.recommendation, 3/10, 1, false, none,
    "I\x27m sorry, I had trouble understanding that. Could you tell me again about how you helped with a sale?",
    true⟩

/-- processVoiceInput with the Anthropic call modelled as an Except
carrying the reply text (the source substitutes a fixed string when the
reply block is not text; that substitution happens upstream of the part
modelled here).  Any thrown error reaches the catch and yields the
fallback; the function is total, so no failure propagates. -/
def processVoiceInput : Except String String → ClaudeVoiceResult
  | .error _ => voiceFallback
  | .ok responseText =>
      let analysis := extractStructuredData responseText
      ⟨analysis.assistanceType, analysis.confidence, analysis.estimatedCredit,
        analysis.needsMoreInfo, some analysis.followUpQuestions,
        makeConversational responseText, true⟩

/-! ## Manual-form credit calculator (calculateEstimatedCredit) -/

inductive CustomerType where
  | new
  | returning
  | member
deriving DecidableEq, Repr

/-- customerTypes multipliers of the manual form. -/
def customerMultiplier : CustomerType → ℚ
  | .new => 13/10
  | .returning => 11/10
  | .member => 1

inductive MemberTier where
  | BASIC
  | PREMIUM
  | VIP
deriving DecidableEq, Repr

/-- calculateEstimatedCredit of the manual submission screen: rate times
sale value, times the customer-type multiplier, times the member-tier
bonus, rounded to cents and then capped at 100 dollars.  The stored
confidence of 0.95 is a constant elsewhere in the screen and does not
enter this calculation. -/
def calculateEstimatedCredit (assistanceType : AssistanceType)
    (customerType : CustomerType) (memberTier : MemberTier)
    (saleValue : ℚ) : ℚ :=
  if saleValue ≤ 0 then 0
  else
    let base := saleValue * rate assistanceType
    let base := base * customerMultiplier customerType
    let base := if memberTier = .PREMIUM then base * (12/10) else base
    let base := if memberTier = .VIP then base * (15/10) else base
    min (roundCents base) 100

/-! ## Data model (prisma/schema.prisma) and route state transitions

Records carry the columns the credit routes read or write.  The
claimedAmount column is nullable in the schema but is set by every
creation path in the sources (and asserted non-null by the review
route), so it is a plain rational here.  Ids are natural numbers handed
out by a counter, standing in for uuids; the uniqueness the database
guarantees for them is part of the reachability invariant below. -/

inductive CreditStatus where
  | PENDING
  | APPROVED
  | REJECTED
  | UNDER_REVIEW
deriving DecidableEq, BEq, Repr

inductive UserRole where
  | MEMBER
  | STAFF
  | ADMIN
deriving DecidableEq, Repr

structure CreditSubmission where
  id : ℕ
  userId : ℕ
  rawInput : String
  assistanceType : AssistanceType
  confidenceScore : ℚ
  claimedAmount : ℚ
  approvedAmount : Option ℚ
  status : CreditStatus
  reviewedBy : Option ℕ
  reviewNotes : Option String
  submittedAt : ℕ
  reviewedAt : Option ℕ
deriving DecidableEq, Repr

structure StoreCredit where
  userId : ℕ
  creditSubmissionId : Option ℕ
  amount : ℚ
  creditType : String
  description : String
  expiresAt : Option ℕ
  isRedeemed : Bool
deriving DecidableEq, Repr

structure DB where
  submissions : List CreditSubmission
  credits : List StoreCredit
  nextId : ℕ
deriving Repr

def emptyDB : DB := ⟨[], [], 0⟩

/-- AppError of the error-handler middleware: a message and an HTTP
status code.  The spec names the kind thrown for an already-terminal
review ConflictError; in the source it is the AppError with message
"Submission already reviewed". -/
structure AppError where
  message : String
  statusCode : ℕ
deriving DecidableEq, Repr

/-- One year in milliseconds, the fixed ledger expiry offset. -/
def yearMs : ℕ := 365 * 24 * 60 * 60 * 1000

/-- The largest value a DECIMAL(8,2) column holds: 999,999.99.  The
schema declares claimed_amount, approved_amount and store_credits.amount
with this type. -/
def decimal82Max : ℚ := 99999999/100

/-- Storing a money value into a DECIMAL(8,2) column: the database
rounds to two decimals and raises a numeric-overflow error beyond the
column bound, which the routes surface as a 500.  Every amount the
routes store is non-negative (the validators and the calculator floor at
0), and for non-negative values the half-away-from-zero rounding of the
database coincides with the floor-based roundCents used here. -/
def pgAmount (q : ℚ) : Option ℚ :=
  if -decimal82Max ≤ roundCents q ∧ roundCents q ≤ decimal82Max then
    some (roundCents q)
  else none

/-- Both submission routes compute the status with the same expression:
confidenceScore at or above 0.8 approves, anything else is PENDING. -/
def decideStatus (conf : ℚ) : CreditStatus :=
  if 4/5 ≤ conf then .APPROVED else .PENDING

/-- The store-credit row both submission routes and the review route
insert on approval: type earned, expiry one year out, not redeemed. -/
def creditEntryFor (userId sid : ℕ) (amount : ℚ) (descr : String)
    (now : ℕ) : StoreCredit :=
  ⟨userId, some sid, amount, "earned", descr, some (now + yearMs), false⟩

/-- The shared creation block of the submit and submit-processed routes:
insert the submission with the decided status and, when that status is
APPROVED, insert the store credit for the claimed amount. -/
def createSubmission (db : DB) (userId : ℕ) (rawInput : String)
    (t : AssistanceType) (conf amount : ℚ) (descr : String)
    (now : ℕ) : DB × CreditSubmission :=
  let s : CreditSubmission :=
    ⟨db.nextId, userId, rawInput, t, conf, amount, none, decideStatus conf,
      none, none, now, none⟩
  let newCredits :=
    if s.status = .APPROVED then [creditEntryFor userId s.id amount descr now]
    else []
  (⟨db.submissions ++ [s], db.credits ++ newCredits, db.nextId + 1⟩, s)

/-- The submit route.  The express-validator chain trims rawInput in
place and requires the trimmed length to lie between 10 and 1000; the
AI outcome (modelled as the Except fed to processWithAI) then fixes
category, confidence and claimed amount, and the decision plus the
conditional ledger write follow.  The insert stores the claimed amount
through the DECIMAL(8,2) column; an overflow there is caught by the
route and surfaced as its 500, with no row created.  The ledger write
reads the amount back from the created row, so it carries the stored
value. -/
def submitOp (db : DB) (userId : ℕ) (rawInput : String)
    (ai : Except String AIData) (now : ℕ) :
    Except AppError (DB × CreditSubmission) :=
  if 10 ≤ (jsTrim rawInput).length ∧ (jsTrim rawInput).length ≤ 1000 then
    match pgAmount (processWithAI ai).estimatedCredit with
    | none => .error ⟨"Failed to process credit submission", 500⟩
    | some cl =>
        .ok (createSubmission db userId (jsTrim rawInput)
          (processWithAI ai).assistanceType (processWithAI ai).confidenceScore cl
          ("Credit for " ++ assistanceTypeStr (processWithAI ai).assistanceType)
          now)
  else .error ⟨"Validation failed", 400⟩

/-- The submit-processed route: the client supplies category, estimated
credit and confidence; the validators require the credit to be at least
0 and the confidence to lie in the unit interval; rawInput falls back to
the fixed string when the transcript is absent or empty.  The server
performs no recomputation of the amount: the client value goes to the
claimed-amount column as is, which rounds it to cents and overflows
(caught by the route as its 500, no row created) beyond the DECIMAL(8,2)
bound; the ledger write reads the stored value back from the created
row. -/
def submitProcessedOp (db : DB) (userId : ℕ)
    (originalTranscript : Option String) (t : AssistanceType)
    (estimatedCredit conf : ℚ) (now : ℕ) :
    Except AppError (DB × CreditSubmission) :=
  if 0 ≤ estimatedCredit ∧ 0 ≤ conf ∧ conf ≤ 1 then
    match pgAmount estimatedCredit with
    | none => .error ⟨"Failed to process voice credit submission", 500⟩
    | some cl =>
        .ok (createSubmission db userId
          (jsStrOr originalTranscript "Voice submission") t conf cl
          ("Voice credit for " ++ assistanceTypeStr t) now)
  else .error ⟨"Validation failed", 400⟩

/-- The body validators of the review route: the decision must be
APPROVED or REJECTED, an override amount, when present, must be at
least 0, and notes, when present, are capped at 500 characters. -/
def validReviewBody (decision : CreditStatus) (overrideAmount : Option ℚ)
    (notes : Option String) : Bool :=
  (decision == .APPROVED || decision == .REJECTED) &&
  (match overrideAmount with
   | none => true
   | some v => decide (0 ≤ v)) &&
  (match notes with
   | none => true
   | some n => decide (n.length ≤ 500))

/-- The admin review route.  requireRole is middleware outside the
credit router file; modelled from the spec: a caller without the STAFF
or ADMIN role receives an AuthorizationError before the handler runs.
The handler then looks the submission up, rejects a terminal one with
the already-reviewed AppError before any write, and otherwise stores the
decision.  The approved amount is the JavaScript logical-or of the
override and the claimed amount, so an override of 0 falls back to the
claimed amount exactly as an absent override does; the same expression
feeds both the approved-amount column and the ledger write, and both
columns are DECIMAL(8,2), so the stored value is the cent-rounded one
and an overflow aborts the update before any write (the route has no
catch of its own; the error-handler middleware outside src surfaces it,
per the spec, as a generic 500). -/
def reviewOp (db : DB) (reviewerId : ℕ) (reviewerRole : UserRole)
    (id : ℕ) (decision : CreditStatus) (overrideAmount : Option ℚ)
    (notes : Option String) (now : ℕ) :
    Except AppError (DB × CreditSubmission) :=
  if ¬(reviewerRole = .ADMIN ∨ reviewerRole = .STAFF) then
    .error ⟨"Insufficient permissions", 403⟩
  else if ¬(validReviewBody decision overrideAmount notes = true) then
    .error ⟨"Validation failed", 400⟩
  else
    match db.submissions.find? (fun s => s.id == id) with
    | none => .error ⟨"Submission not found", 404⟩
    | some s =>
        if s.status ≠ .PENDING ∧ s.status ≠ .UNDER_REVIEW then
          .error ⟨"Submission already reviewed", 400⟩
        else
          match pgAmount (jsQOr overrideAmount s.claimedAmount) with
          | none => .error ⟨"Internal server error", 500⟩
          | some appAmt =>
              let updated : CreditSubmission :=
                { s with status := decision, approvedAmount := some appAmt,
                         reviewedBy := some reviewerId, reviewNotes := notes,
                         reviewedAt := some now }
              let subs := db.submissions.map
                (fun t => if t.id = id then updated else t)
              let newCredits :=
                if decision = .APPROVED then
                  [creditEntryFor s.userId s.id appAmt
                    ("Credit for " ++ assistanceTypeStr s.assistanceType ++
                      " (reviewed)") now]
                else []
              .ok (⟨subs, db.credits ++ newCredits, db.nextId⟩, updated)

/-- The eligibility filter of the balance route: the caller's credits
that are not redeemed and whose expiry is null or strictly in the
future. -/
def eligibleCredit (userId now : ℕ) (c : StoreCredit) : Bool :=
  c.userId == userId && c.isRedeemed == false &&
    (match c.expiresAt with
     | none => true
     | some e => decide (now < e))

structure BalanceView where
  availableBalance : ℚ
  totalEarned : ℚ
  totalRedeemed : ℚ
deriving DecidableEq, Repr

/-- The balance route: the available balance is the reduce-sum over the
filtered credits, computed at read time; the stats are aggregate sums
over all of the caller's credits and over the redeemed ones. -/
def balanceOp (db : DB) (userId now : ℕ) : BalanceView :=
  ⟨(db.credits.filter (eligibleCredit userId now)).foldl
      (fun acc c => acc + c.amount) 0,
   (db.credits.filter (fun c => c.userId == userId)).foldl
      (fun acc c => acc + c.amount) 0,
   (db.credits.filter (fun c => c.userId == userId && c.isRedeemed)).foldl
      (fun acc c => acc + c.amount) 0⟩

/-- The admin pending queue: the submissions whose status is PENDING or
UNDER_REVIEW (the route also orders them oldest first and paginates;
only membership matters below). -/
def adminPendingFilter (db : DB) : List CreditSubmission :=
  db.submissions.filter (fun s => s.status == .PENDING || s.status == .UNDER_REVIEW)

/-- The status of an operation outcome, for stating concrete scenarios. -/
def statusOf (r : Except AppError (DB × CreditSubmission)) : Option CreditStatus :=
  match r with
  | .ok (_, s) => some s.status
  | .error _ => none

/-- The credits table of an operation outcome. -/
def creditsOf (r : Except AppError (DB × CreditSubmission)) :
    Option (List StoreCredit) :=
  match r with
  | .ok (db, _) => some db.credits
  | .error _ => none

/-- The submissions table of an operation outcome. -/
def submissionsOf (r : Except AppError (DB × CreditSubmission)) :
    Option (List CreditSubmission) :=
  match r with
  | .ok (db, _) => some db.submissions
  | .error _ => none

/-! ## Reachable states and structural invariants -/

/-- The states reachable from the empty store by the state-changing
credit routes (the balance route reads only). -/
inductive Reach : DB → Prop where
  | init : Reach emptyDB
  | submit (db : DB) (u : ℕ) (raw : String) (ai : Except String AIData)
      (now : ℕ) (db' : DB) (s : CreditSubmission) (h : Reach db)
      (hs : submitOp db u raw ai now = .ok (db', s)) : Reach db'
  | submitProcessed (db : DB) (u : ℕ) (ot : Option String)
      (t : AssistanceType) (amt conf : ℚ) (now : ℕ) (db' : DB)
      (s : CreditSubmission) (h : Reach db)
      (hs : submitProcessedOp db u ot t amt conf now = .ok (db', s)) : Reach db'
  | review (db : DB) (rid : ℕ) (role : UserRole) (id : ℕ)
      (dec : CreditStatus) (ov : Option ℚ) (notes : Option String)
      (now : ℕ) (db' : DB) (s : CreditSubmission) (h : Reach db)
      (hs : reviewOp db rid role id dec ov notes now = .ok (db', s)) : Reach db'

/-- Invariants of reachable states: stored confidences lie in the unit
interval, ids are fresh and unique, every ledger entry that references a
claim references an APPROVED one, no claim is referenced by more
than one ledger entry (the unique constraint on creditSubmissionId), and
every stored amount is a value its DECIMAL(8,2) column can hold. -/
structure Inv (db : DB) : Prop where
  confRange : ∀ s ∈ db.submissions, 0 ≤ s.confidenceScore ∧ s.confidenceScore ≤ 1
  idBound : ∀ s ∈ db.submissions, s.id < db.nextId
  idsNodup : (db.submissions.map (fun s => s.id)).Nodup
  creditRef : ∀ c ∈ db.credits, ∀ i, c.creditSubmissionId = some i →
      ∃ s ∈ db.submissions, s.id = i ∧ s.status = .APPROVED
  creditOnce : ∀ i, (db.credits.filter
      (fun c => decide (c.creditSubmissionId = some i))).length ≤ 1
  claimedStored : ∀ s ∈ db.submissions,
      pgAmount s.claimedAmount = some s.claimedAmount
  creditStored : ∀ c ∈ db.credits, pgAmount c.amount = some c.amount

/-- An optional expiry is strictly in the future. -/
instance instDecFutureExpiry (o : Option ℕ) (now : ℕ) :
    Decidable (∃ e, o = some e ∧ now < e) :=
  match o with
  | none => isFalse (by simp)
  | some e => decidable_of_iff (now < e) (by simp)

/-- The balance the spec describes: the sum of the amounts of the
member's entries that are not redeemed and not expired (expiry null or
in the future).  Stated independently of the route code, to be compared
with it. -/
def specAvailableBalance (credits : List StoreCredit) (u now : ℕ) : ℚ :=
  ((credits.filter (fun c => decide (c.userId = u ∧ c.isRedeemed = false ∧
      (c.expiresAt = none ∨ ∃ e, c.expiresAt = some e ∧ now < e)))).map
    (fun c => c.amount)).sum

/-! ### Concrete sample states used by witnesses and counterexamples -/

/-- The submission created by a submit-processed call with confidence
0.9 and amount 10 on the empty store: auto-approved. -/
def sA : CreditSubmission :=
  ⟨0, 1, "Voice submission", .consultation, 9/10, 10, none, .APPROVED,
    none, none, 0, none⟩

/-- The store after that call: one approved claim and its ledger
entry. -/
def dbA : DB :=
  ⟨[sA], [creditEntryFor 1 0 10
    ("Voice credit for " ++ assistanceTypeStr .consultation) 0], 1⟩

/-- The submission created by a submit-processed call with confidence
0.5 and amount 7 on the empty store: pending. -/
def sP : CreditSubmission :=
  ⟨0, 2, "Voice submission", .assistance, 1/2, 7, none, .PENDING,
    none, none, 3, none⟩

/-- The store after that call: one pending claim, empty ledger. -/
def dbP : DB := ⟨[sP], [], 1⟩

/-- The AI fields of scenario B: consultation, confidence 0.95, sale
value 45. -/
def scenarioBData : AIData := ⟨some .consultation, some (95/100), some 45, none⟩

/-- A raw input for the duplicate-submission scenario. -/
def rawDup : String := "helped sell a yoga mat"

/-- First claim created from rawDup under the AI fallback. -/
def sD1 : CreditSubmission :=
  ⟨0, 1, jsTrim rawDup, .recommendation, 3/10, 1, none, .PENDING,
    none, none, 0, none⟩

def dbD1 : DB := ⟨[sD1], [], 1⟩

/-- Second, identical claim created by the retried call. -/
def sD2 : CreditSubmission :=
  ⟨1, 1, jsTrim rawDup, .recommendation, 3/10, 1, none, .PENDING,
    none, none, 0, none⟩

def dbD2 : DB := ⟨[sD1, sD2], [], 2⟩

lemma inv_empty : Inv emptyDB := by
  constructor <;> simp [emptyDB]

/-- Rounding to cents is idempotent. -/
lemma roundCents_roundCents (q : ℚ) : roundCents (roundCents q) = roundCents q := by
  rw [roundCents, roundCents, jsRound, jsRound, div_mul_cancel₀ _ (by norm_num : (100:ℚ) ≠ 0),
    Int.floor_int_add]
  norm_num

/-- A value a DECIMAL(8,2) column accepted is stored unchanged when
written again. -/
lemma pgAmount_idem (q c : ℚ) (h : pgAmount q = some c) : pgAmount c = some c := by
  rw [pgAmount] at h
  by_cases hc : -decimal82Max ≤ roundCents q ∧ roundCents q ≤ decimal82Max
  · rw [if_pos hc] at h
    have hcq := Option.some.inj h
    subst hcq
    rw [pgAmount, roundCents_roundCents, if_pos hc]
  · rw [if_neg hc] at h
    exact absurd h (by simp)

/-- The confidence processWithAI hands back always lies in the unit
interval: the success path clamps into the 0.1 to 1.0 band and the
fallback is the constant 0.3. -/
lemma processWithAI_conf_bounds (x : Except String AIData) :
    0 ≤ (processWithAI x).confidenceScore ∧ (processWithAI x).confidenceScore ≤ 1 := by
  cases x with
  | error e =>
      simp only [processWithAI, aiFallback]
      norm_num
  | ok d =>
      simp only [processWithAI, processWithAIok]
      constructor
      · exact le_trans (by norm_num : (0:ℚ) ≤ 1/10) (le_max_left _ _)
      · exact max_le (by norm_num) (min_le_left _ _)

lemma inv_createSubmission (db : DB) (u : ℕ) (raw : String)
    (t : AssistanceType) (conf amount : ℚ) (descr : String) (now : ℕ)
    (h : Inv db) (h0 : 0 ≤ conf) (h1 : conf ≤ 1)
    (hamt : pgAmount amount = some amount) :
    Inv (createSubmission db u raw t conf amount descr now).1 := by
  simp only [createSubmission]
  refine ⟨?_, ?_, ?_, ?_, ?_, ?_, ?_⟩
  · intro x hx
    rcases List.mem_append.mp hx with hx | hx
    · exact h.confRange x hx
    · simp only [List.mem_singleton] at hx
      subst hx
      exact ⟨h0, h1⟩
  · intro x hx
    rcases List.mem_append.mp hx with hx | hx
    · exact lt_trans (h.idBound x hx) (Nat.lt_succ_self _)
    · simp only [List.mem_singleton] at hx
      subst hx
      exact Nat.lt_succ_self _
  · simp only [List.map_append, List.map_cons, List.map_nil]
    rw [List.nodup_append]
    refine ⟨h.idsNodup, List.nodup_singleton _, ?_⟩
    intro a ha hb
    simp only [List.mem_singleton] at hb
    subst hb
    obtain ⟨x, hx, hxid⟩ := List.mem_map.mp ha
    exact absurd (hxid ▸ h.idBound x hx) (lt_irrefl _)
  · intro c hc i hci
    rcases List.mem_append.mp hc with hc | hc
    · obtain ⟨w, hw, hwid, hwst⟩ := h.creditRef c hc i hci
      exact ⟨w, List.mem_append_left _ hw, hwid, hwst⟩
    · by_cases happ : decideStatus conf = CreditStatus.APPROVED
      · simp only [happ, if_pos, creditEntryFor] at hc
        simp only [List.mem_singleton] at hc
        subst hc
        simp only [Option.some.injEq] at hci
        refine ⟨⟨db.nextId, u, raw, t, conf, amount, none, decideStatus conf,
          none, none, now, none⟩, List.mem_append_right _ (List.mem_singleton.mpr rfl),
          hci, happ⟩
      · rw [if_neg happ] at hc
        exact absurd hc (List.not_mem_nil c)
  · intro i
    rw [List.filter_append, List.length_append]
    by_cases happ : decideStatus conf = CreditStatus.APPROVED
    · by_cases hi : i = db.nextId
      · subst hi
        have hold : db.credits.filter
            (fun c => decide (c.creditSubmissionId = some db.nextId)) = [] := by
          rw [List.filter_eq_nil_iff]
          intro c hc hp
          simp only [decide_eq_true_eq] at hp
          obtain ⟨w, hw, hwid, _⟩ := h.creditRef c hc db.nextId hp
          exact absurd (hwid ▸ h.idBound w hw) (lt_irrefl _)
        rw [hold]
        simp [happ, creditEntryFor]
      · have hnew : (if ((⟨db.nextId, u, raw, t, conf, amount, none,
            decideStatus conf, none, none, now, none⟩ :
            CreditSubmission).status = CreditStatus.APPROVED) then
            [creditEntryFor u db.nextId amount descr now] else []).filter
            (fun c => decide (c.creditSubmissionId = some i)) = [] := by
          simp only [happ, if_pos]
          rw [List.filter_eq_nil_iff]
          intro c hc hp
          simp only [List.mem_singleton] at hc
          subst hc
          simp only [creditEntryFor, decide_eq_true_eq, Option.some.injEq] at hp
          exact hi hp.symm
        rw [hnew]
        simpa using h.creditOnce i
    · simp only [happ, if_neg]
      simpa using h.creditOnce i
  · intro x hx
    rcases List.mem_append.mp hx with hx | hx
    · exact h.claimedStored x hx
    · simp only [List.mem_singleton] at hx
      subst hx
      exact hamt
  · intro c hc
    rcases List.mem_append.mp hc with hc | hc
    · exact h.creditStored c hc
    · by_cases happ : decideStatus conf = CreditStatus.APPROVED
      · simp only [happ, if_pos, creditEntryFor] at hc
        simp only [List.mem_singleton] at hc
        subst hc
        exact hamt
      · rw [if_neg happ] at hc
        exact absurd hc (List.not_mem_nil c)

lemma inv_submitOp (db : DB) (u : ℕ) (raw : String)
    (ai : Except String AIData) (now : ℕ) (db' : DB) (s : CreditSubmission)
    (h : Inv db) (hs : submitOp db u raw ai now = .ok (db', s)) : Inv db' := by
  simp only [submitOp] at hs
  split at hs
  · split at hs
    · exact absurd hs (by simp)
    rename_i cl hpg
    simp only [Except.ok.injEq] at hs
    have hinv := inv_createSubmission db u (jsTrim raw)
      (processWithAI ai).assistanceType (processWithAI ai).confidenceScore cl
      ("Credit for " ++ assistanceTypeStr (processWithAI ai).assistanceType) now
      h (processWithAI_conf_bounds ai).1 (processWithAI_conf_bounds ai).2
      (pgAmount_idem _ _ hpg)
    rw [hs] at hinv
    simpa using hinv
  · exact absurd hs (by simp)

lemma inv_submitProcessedOp (db : DB) (u : ℕ) (ot : Option String)
    (t : AssistanceType) (amt conf : ℚ) (now : ℕ) (db' : DB)
    (s : CreditSubmission) (h : Inv db)
    (hs : submitProcessedOp db u ot t amt conf now = .ok (db', s)) : Inv db' := by
  simp only [submitProcessedOp] at hs
  split at hs
  · rename_i hcond
    split at hs
    · exact absurd hs (by simp)
    rename_i cl hpg
    simp only [Except.ok.injEq] at hs
    have hinv := inv_createSubmission db u (jsStrOr ot "Voice submission")
      t conf cl ("Voice credit for " ++ assistanceTypeStr t) now
      h hcond.2.1 hcond.2.2 (pgAmount_idem _ _ hpg)
    rw [hs] at hinv
    simpa using hinv
  · exact absurd hs (by simp)

/-- In a table whose ids are unique, find-by-id returns the member with
that id. -/
lemma find?_id_eq (l : List CreditSubmission)
    (hnd : (l.map (fun x => x.id)).Nodup) (s : CreditSubmission) (i : ℕ)
    (hs : s ∈ l) (hid : s.id = i) :
    l.find? (fun t => t.id == i) = some s := by
  induction l with
  | nil => cases hs
  | cons a tl ih =>
      simp only [List.map_cons, List.nodup_cons] at hnd
      rcases List.mem_cons.mp hs with rfl | hmem
      · rw [List.find?_cons_of_pos]
        simp [hid]
      · by_cases hai : a.id = i
        · exfalso
          apply hnd.1
          rw [hai, ← hid]
          exact List.mem_map.mpr ⟨s, hmem, rfl⟩
        · rw [List.find?_cons_of_neg]
          · exact ih hnd.2 hmem
          · simp [hai]

/-- Replacing the row with a given id by a row carrying the same id
leaves the id column unchanged, hence still unique. -/
lemma nodup_ids_map_replace (l : List CreditSubmission) (id : ℕ)
    (r : CreditSubmission) (hr : r.id = id)
    (hnd : (l.map (fun x => x.id)).Nodup) :
    ((l.map (fun t => if t.id = id then r else t)).map (fun x => x.id)).Nodup := by
  rw [List.map_map]
  have hids : l.map ((fun x => x.id) ∘ (fun t => if t.id = id then r else t)) =
      l.map (fun x => x.id) := by
    apply List.map_congr_left
    intro x hx
    by_cases hxe : x.id = id
    · simp [Function.comp, hxe, hr]
    · simp [Function.comp, hxe]
  rw [hids]
  exact hnd

lemma inv_reviewOp (db : DB) (rid : ℕ) (role : UserRole) (id : ℕ)
    (dec : CreditStatus) (ov : Option ℚ) (notes : Option String) (now : ℕ)
    (db' : DB) (u : CreditSubmission) (h : Inv db)
    (hr : reviewOp db rid role id dec ov notes now = .ok (db', u)) : Inv db' := by
  simp only [reviewOp] at hr
  split at hr
  · exact absurd hr (by simp)
  split at hr
  · exact absurd hr (by simp)
  split at hr
  · exact absurd hr (by simp)
  rename_i s hfind
  split at hr
  · exact absurd hr (by simp)
  rename_i hguard
  split at hr
  · exact absurd hr (by simp)
  rename_i appAmt hpga
  simp only [Except.ok.injEq, Prod.mk.injEq] at hr
  obtain ⟨hdb, -⟩ := hr
  subst hdb
  have hsmem : s ∈ db.submissions := List.mem_of_find?_eq_some hfind
  have hsid : s.id = id := by simpa using List.find?_some hfind
  have hPU : s.status = CreditStatus.PENDING ∨ s.status = CreditStatus.UNDER_REVIEW := by
    push_neg at hguard
    by_cases hp : s.status = CreditStatus.PENDING
    · exact Or.inl hp
    · exact Or.inr (hguard hp)
  have hnoref : ∀ c ∈ db.credits, c.creditSubmissionId ≠ some id := by
    intro c hc hcontra
    obtain ⟨w, hw, hwid, hwst⟩ := h.creditRef c hc id hcontra
    have hws : w = s :=
      List.inj_on_of_nodup_map h.idsNodup hw hsmem (by rw [hwid, hsid])
    rw [hws] at hwst
    rcases hPU with hp | hp <;> simp [hp] at hwst
  refine ⟨?_, ?_, ?_, ?_, ?_, ?_, ?_⟩
  · intro x hx
    simp only at hx
    obtain ⟨t0, ht0, hft⟩ := List.mem_map.mp hx
    by_cases hteq : t0.id = id
    · rw [if_pos hteq] at hft
      subst hft
      simpa using h.confRange s hsmem
    · rw [if_neg hteq] at hft
      subst hft
      exact h.confRange t0 ht0
  · intro x hx
    simp only at hx
    obtain ⟨t0, ht0, hft⟩ := List.mem_map.mp hx
    by_cases hteq : t0.id = id
    · rw [if_pos hteq] at hft
      subst hft
      simpa using h.idBound s hsmem
    · rw [if_neg hteq] at hft
      subst hft
      exact h.idBound t0 ht0
  · simp only
    exact nodup_ids_map_replace db.submissions id _ (by simpa using hsid) h.idsNodup
  · intro c hc i hci
    simp only at hc
    rcases List.mem_append.mp hc with hcold | hcnew
    · obtain ⟨w, hw, hwid, hwst⟩ := h.creditRef c hcold i hci
      have hwne : w.id ≠ id := by
        intro e
        apply hnoref c hcold
        rw [hci, ← hwid, e]
      refine ⟨w, ?_, hwid, hwst⟩
      exact List.mem_map.mpr ⟨w, hw, by rw [if_neg hwne]⟩
    · by_cases hdec : dec = CreditStatus.APPROVED
      · rw [if_pos hdec] at hcnew
        simp only [List.mem_singleton] at hcnew
        subst hcnew
        simp only [creditEntryFor, Option.some.injEq] at hci
        refine ⟨_, List.mem_map.mpr ⟨s, hsmem, rfl⟩, ?_, ?_⟩
        · rw [if_pos hsid]
          simpa using hci
        · rw [if_pos hsid]
          simpa using hdec
      · rw [if_neg hdec] at hcnew
        exact absurd hcnew (List.not_mem_nil c)
  · intro i
    simp only
    rw [List.filter_append, List.length_append]
    by_cases hdec : dec = CreditStatus.APPROVED
    · by_cases hi : i = id
      · subst hi
        have hold : db.credits.filter
            (fun c => decide (c.creditSubmissionId = some i)) = [] := by
          rw [List.filter_eq_nil_iff]
          intro c hc hp
          simp only [decide_eq_true_eq] at hp
          exact hnoref c hc hp
        rw [hold]
        simp [hdec, creditEntryFor, hsid]
      · have hnew : ((if dec = CreditStatus.APPROVED then
            [creditEntryFor s.userId s.id appAmt
              ("Credit for " ++ assistanceTypeStr s.assistanceType ++ " (reviewed)") now]
            else []).filter (fun c => decide (c.creditSubmissionId = some i))).length = 0 := by
          rw [if_pos hdec]
          have hine : ¬id = i := fun e => hi (Eq.symm e)
          simp [creditEntryFor, hsid, hine]
        rw [hnew]
        simpa using h.creditOnce i
    · rw [if_neg hdec]
      simpa using h.creditOnce i
  · intro x hx
    simp only at hx
    obtain ⟨t0, ht0, hft⟩ := List.mem_map.mp hx
    by_cases hteq : t0.id = id
    · rw [if_pos hteq] at hft
      subst hft
      simpa using h.claimedStored s hsmem
    · rw [if_neg hteq] at hft
      subst hft
      exact h.claimedStored t0 ht0
  · intro c hc
    simp only at hc
    rcases List.mem_append.mp hc with hcold | hcnew
    · exact h.creditStored c hcold
    · by_cases hdec : dec = CreditStatus.APPROVED
      · rw [if_pos hdec] at hcnew
        simp only [List.mem_singleton] at hcnew
        subst hcnew
        exact pgAmount_idem _ _ hpga
      · rw [if_neg hdec] at hcnew
        exact absurd hcnew (List.not_mem_nil c)

/-- Every reachable state satisfies the structural invariants. -/
lemma inv_of_reach (db : DB) (h : Reach db) : Inv db := by
  induction h with
  | init => exact inv_empty
  | submit db u raw ai now db' s hR hs ih =>
      exact inv_submitOp db u raw ai now db' s ih hs
  | submitProcessed db u ot t amt conf now db' s hR hs ih =>
      exact inv_submitProcessedOp db u ot t amt conf now db' s ih hs
  | review db rid role id dec ov notes now db' s hR hs ih =>
      exact inv_reviewOp db rid role id dec ov notes now db' s ih hs

/-! ## Evaluation helpers -/

/-- Characterise roundCents by the floor bracket of the scaled value. -/
lemma roundCents_eq (q : ℚ) (n : ℤ) (h1 : (n : ℚ) ≤ q * 100 + 1/2)
    (h2 : q * 100 + 1/2 < n + 1) : roundCents q = (n : ℚ) / 100 := by
  rw [roundCents, jsRound, Int.floor_eq_iff.mpr ⟨h1, h2⟩]

/-- A DECIMAL(8,2) write evaluated through the floor bracket: n is the
stored cent count, v the stored value. -/
lemma pgAmount_some_eq (q v : ℚ) (n : ℤ) (h1 : (n : ℚ) ≤ q * 100 + 1/2)
    (h2 : q * 100 + 1/2 < n + 1) (h3 : -99999999 ≤ n) (h4 : n ≤ 99999999)
    (hv : (n : ℚ)/100 = v) : pgAmount q = some v := by
  have hb1 : -decimal82Max ≤ v := by
    rw [← hv, decimal82Max]
    have hcast : (-99999999 : ℚ) ≤ (n : ℚ) := by exact_mod_cast h3
    linarith
  have hb2 : v ≤ decimal82Max := by
    rw [← hv, decimal82Max]
    have hcast : ((n : ℚ)) ≤ 99999999 := by exact_mod_cast h4
    linarith
  rw [pgAmount, roundCents_eq q n h1 h2, hv, if_pos ⟨hb1, hb2⟩]

/-- A DECIMAL(8,2) write overflows above the column bound. -/
lemma pgAmount_none (q : ℚ) (n : ℤ) (h1 : (n : ℚ) ≤ q * 100 + 1/2)
    (h2 : q * 100 + 1/2 < n + 1) (hgt : 99999999 < n) : pgAmount q = none := by
  rw [pgAmount, roundCents_eq q n h1 h2, if_neg]
  intro hcon
  have hle := hcon.2
  rw [decimal82Max] at hle
  have hcast : ((n : ℚ)) ≤ 99999999 := by linarith
  have : n ≤ 99999999 := by exact_mod_cast hcast
  omega

lemma pg_one : pgAmount 1 = some 1 :=
  pgAmount_some_eq 1 1 100 (by norm_num) (by norm_num) (by norm_num)
    (by norm_num) (by norm_num)

lemma pg_seven : pgAmount 7 = some 7 :=
  pgAmount_some_eq 7 7 700 (by norm_num) (by norm_num) (by norm_num)
    (by norm_num) (by norm_num)

lemma pg_ten : pgAmount 10 = some 10 :=
  pgAmount_some_eq 10 10 1000 (by norm_num) (by norm_num) (by norm_num)
    (by norm_num) (by norm_num)

lemma pg_999 : pgAmount 999 = some 999 :=
  pgAmount_some_eq 999 999 99900 (by norm_num) (by norm_num) (by norm_num)
    (by norm_num) (by norm_num)

lemma pg_1000 : pgAmount 1000 = some 1000 :=
  pgAmount_some_eq 1000 1000 100000 (by norm_num) (by norm_num) (by norm_num)
    (by norm_num) (by norm_num)

lemma jsQOr_some_zero (d : ℚ) : jsQOr (some 0) d = d := by simp [jsQOr]

lemma jsQOr_none (d : ℚ) : jsQOr none d = d := rfl

/-- An explicit override of 0 passes the validators exactly as an absent
override does: the minimum allowed is 0. -/
lemma validReviewBody_zero (dec : CreditStatus) (notes : Option String) :
    validReviewBody dec (some 0) notes = validReviewBody dec none notes := by
  simp [validReviewBody]

/-- Successful submit-processed calls evaluate to this explicit state:
the stored claimed amount is the column-stored value cl. -/
lemma submitProcessedOp_char (db : DB) (u : ℕ) (ot : Option String)
    (t : AssistanceType) (amt conf : ℚ) (now : ℕ) (cl : ℚ)
    (h : 0 ≤ amt ∧ 0 ≤ conf ∧ conf ≤ 1)
    (hpg : pgAmount amt = some cl) :
    submitProcessedOp db u ot t amt conf now = .ok
      (⟨db.submissions ++ [⟨db.nextId, u, jsStrOr ot "Voice submission", t,
          conf, cl, none, decideStatus conf, none, none, now, none⟩],
        db.credits ++ (if decideStatus conf = .APPROVED then
          [creditEntryFor u db.nextId cl
            ("Voice credit for " ++ assistanceTypeStr t) now] else []),
        db.nextId + 1⟩,
       ⟨db.nextId, u, jsStrOr ot "Voice submission", t, conf, cl, none,
          decideStatus conf, none, none, now, none⟩) := by
  rw [submitProcessedOp, if_pos h, hpg]
  rfl

/-- Successful submit calls evaluate to this explicit state: the stored
claimed amount is the column-stored value cl. -/
lemma submitOp_char (db : DB) (u : ℕ) (raw : String)
    (ai : Except String AIData) (now : ℕ) (cl : ℚ)
    (h : 10 ≤ (jsTrim raw).length ∧ (jsTrim raw).length ≤ 1000)
    (hpg : pgAmount (processWithAI ai).estimatedCredit = some cl) :
    submitOp db u raw ai now = .ok
      (⟨db.submissions ++ [⟨db.nextId, u, jsTrim raw,
          (processWithAI ai).assistanceType, (processWithAI ai).confidenceScore,
          cl, none,
          decideStatus (processWithAI ai).confidenceScore, none, none, now, none⟩],
        db.credits ++ (if decideStatus (processWithAI ai).confidenceScore = .APPROVED then
          [creditEntryFor u db.nextId cl
            ("Credit for " ++ assistanceTypeStr (processWithAI ai).assistanceType) now]
          else []),
        db.nextId + 1⟩,
       ⟨db.nextId, u, jsTrim raw, (processWithAI ai).assistanceType,
          (processWithAI ai).confidenceScore, cl,
          none, decideStatus (processWithAI ai).confidenceScore, none, none, now,
          none⟩) := by
  rw [submitOp, if_pos h, hpg]
  rfl

/-- Reviewing a terminal claim fails before any write. -/
lemma reviewOp_terminal (db : DB) (rid : ℕ) (role : UserRole) (id : ℕ)
    (dec : CreditStatus) (ov : Option ℚ) (notes : Option String) (now : ℕ)
    (s : CreditSubmission)
    (hnd : (db.submissions.map (fun x => x.id)).Nodup)
    (hs : s ∈ db.submissions) (hid : s.id = id)
    (hterm : s.status ≠ .PENDING ∧ s.status ≠ .UNDER_REVIEW)
    (hrole : role = .ADMIN ∨ role = .STAFF)
    (hvalid : validReviewBody dec ov notes = true) :
    reviewOp db rid role id dec ov notes now =
      .error ⟨"Submission already reviewed", 400⟩ := by
  rw [reviewOp, if_neg (not_not_intro hrole), if_neg (not_not_intro hvalid),
    find?_id_eq db.submissions hnd s id hs hid]
  dsimp only
  rw [if_pos hterm]

/-- Reviewing a reviewable claim succeeds and evaluates to this explicit
state. -/
lemma reviewOp_ok_char (db : DB) (rid : ℕ) (role : UserRole) (id : ℕ)
    (dec : CreditStatus) (ov : Option ℚ) (notes : Option String) (now : ℕ)
    (s : CreditSubmission) (appAmt : ℚ)
    (hnd : (db.submissions.map (fun x => x.id)).Nodup)
    (hs : s ∈ db.submissions) (hid : s.id = id)
    (hp : s.status = .PENDING ∨ s.status = .UNDER_REVIEW)
    (hrole : role = .ADMIN ∨ role = .STAFF)
    (hvalid : validReviewBody dec ov notes = true)
    (hpga : pgAmount (jsQOr ov s.claimedAmount) = some appAmt) :
    reviewOp db rid role id dec ov notes now = .ok
      (⟨db.submissions.map (fun t => if t.id = id then
          { s with status := dec,
                   approvedAmount := some appAmt,
                   reviewedBy := some rid, reviewNotes := notes,
                   reviewedAt := some now } else t),
        db.credits ++ (if dec = .APPROVED then
          [creditEntryFor s.userId s.id appAmt
            ("Credit for " ++ assistanceTypeStr s.assistanceType ++ " (reviewed)") now]
          else []),
        db.nextId⟩,
       { s with status := dec,
                approvedAmount := some appAmt,
                reviewedBy := some rid, reviewNotes := notes,
                reviewedAt := some now }) := by
  rw [reviewOp, if_neg (not_not_intro hrole), if_neg (not_not_intro hvalid),
    find?_id_eq db.submissions hnd s id hs hid]
  dsimp only
  rw [if_neg (by rcases hp with hp | hp <;> simp [hp]), hpga]

/-- The submit-processed call that builds the approved sample state. -/
lemma stepA : submitProcessedOp emptyDB 1 none .consultation 10 (9/10) 0 =
    .ok (dbA, sA) := by
  rw [submitProcessedOp_char emptyDB 1 none .consultation 10 (9/10) 0 10
    (by norm_num) pg_ten]
  have hd : decideStatus (9/10) = .APPROVED := by
    rw [decideStatus, if_pos]
    norm_num
  rw [hd]
  simp [emptyDB, dbA, sA, jsStrOr]

lemma reachA : Reach dbA :=
  Reach.submitProcessed emptyDB 1 none .consultation 10 (9/10) 0 dbA sA
    Reach.init stepA

/-- The submit-processed call that builds the pending sample state. -/
lemma stepP : submitProcessedOp emptyDB 2 none .assistance 7 (1/2) 3 =
    .ok (dbP, sP) := by
  rw [submitProcessedOp_char emptyDB 2 none .assistance 7 (1/2) 3 7
    (by norm_num) pg_seven]
  have hd : decideStatus (1/2) = .PENDING := by
    rw [decideStatus, if_neg]
    norm_num
  rw [hd]
  simp [emptyDB, dbP, sP, jsStrOr]

lemma reachP : Reach dbP :=
  Reach.submitProcessed emptyDB 2 none .assistance 7 (1/2) 3 dbP sP
    Reach.init stepP

/-- The fold the balance route performs is the sum of the mapped
amounts. -/
lemma foldl_amount (l : List StoreCredit) (acc : ℚ) :
    l.foldl (fun a c => a + c.amount) acc =
      acc + (l.map (fun c => c.amount)).sum := by
  induction l generalizing acc with
  | nil => simp
  | cons c t ih => simp [ih, add_assoc]

/-- The route filter agrees pointwise with the spec predicate. -/
lemma eligible_iff (u now : ℕ) (c : StoreCredit) :
    eligibleCredit u now c = decide (c.userId = u ∧ c.isRedeemed = false ∧
      (c.expiresAt = none ∨ ∃ e, c.expiresAt = some e ∧ now < e)) := by
  cases hx : c.expiresAt <;> cases hr : c.isRedeemed <;>
    by_cases hu : c.userId = u <;> simp [eligibleCredit, hx, hr, hu]

/-! ## Claim theorems -/

/-- Claim C9: a claim whose confidence is exactly the 0.80 threshold is
auto-approved; one cent-scale increment below (0.79) it is PENDING, all
other inputs equal. -/
theorem threshold_boundary_exact :
    statusOf (submitProcessedOp emptyDB 1 none .consultation 10 (4/5) 0) =
      some .APPROVED ∧
    statusOf (submitProcessedOp emptyDB 1 none .consultation 10 (79/100) 0) =
      some .PENDING := by
  constructor
  · rw [submitProcessedOp_char emptyDB 1 none .consultation 10 (4/5) 0 10
      (by norm_num) pg_ten]
    have hd : decideStatus (4/5) = CreditStatus.APPROVED := by
      rw [decideStatus, if_pos]
      norm_num
    rw [hd]
    simp [statusOf]
  · rw [submitProcessedOp_char emptyDB 1 none .consultation 10 (79/100) 0 10
      (by norm_num) pg_ten]
    have hd : decideStatus (79/100) = CreditStatus.PENDING := by
      rw [decideStatus, if_neg]
      norm_num
    rw [hd]
    simp [statusOf]

/-- Claim C2 counterexample: a submit-processed call with confidence 0.9
and the storable amount 1000 dollars — well within the DECIMAL(8,2)
column bound yet far above the 50-dollar cap of the server calculator
and the 100-dollar cap of the manual form, the only candidate ceilings
in the sources — is auto-approved with a ledger write of the full client
amount; no auto-approve ceiling is consulted, contradicting the claimed
iff. -/
theorem autoapprove_ignores_amount_ceiling :
    statusOf (submitProcessedOp emptyDB 1 none .consultation 1000 (9/10) 0) =
      some .APPROVED ∧
    creditsOf (submitProcessedOp emptyDB 1 none .consultation 1000 (9/10) 0) =
      some [creditEntryFor 1 0 1000
        ("Voice credit for " ++ assistanceTypeStr .consultation) 0] ∧
    (100 : ℚ) < 1000 ∧ (1000 : ℚ) ≤ decimal82Max := by
  have hchar := submitProcessedOp_char emptyDB 1 none .consultation 1000
    (9/10) 0 1000 (by norm_num) pg_1000
  have hd : decideStatus (9/10) = CreditStatus.APPROVED := by
    rw [decideStatus, if_pos]
    norm_num
  rw [hd] at hchar
  refine ⟨?_, ?_, by norm_num, by rw [decimal82Max]; norm_num⟩
  · rw [hchar]
    simp [statusOf]
  · rw [hchar]
    simp [creditsOf, emptyDB]

/-- Claim C2 amended: on both submission routes the decision consults
only the confidence — APPROVED iff confidence is at least 0.8, with a
ledger write of the stored claimed amount (the client amount as the
DECIMAL(8,2) column stores it, cent-rounded); no auto-approve ceiling
short of the column bound exists.  In every other case the status is
PENDING, no ledger row is written, and the claim appears in the admin
pending queue. -/
theorem decision_rule_confidence_only :
    (∀ db u ot t amt conf now db' s,
      submitProcessedOp db u ot t amt conf now = .ok (db', s) →
        (s.status = .APPROVED ↔ 4/5 ≤ conf) ∧
        pgAmount amt = some s.claimedAmount ∧
        (4/5 ≤ conf → db'.credits = db.credits ++
          [creditEntryFor u db.nextId s.claimedAmount
            ("Voice credit for " ++ assistanceTypeStr t) now]) ∧
        (¬4/5 ≤ conf → s.status = .PENDING ∧ db'.credits = db.credits ∧
          s ∈ adminPendingFilter db')) ∧
    (∀ db u raw ai now db' s,
      submitOp db u raw ai now = .ok (db', s) →
        (s.status = .APPROVED ↔ 4/5 ≤ (processWithAI ai).confidenceScore) ∧
        pgAmount (processWithAI ai).estimatedCredit = some s.claimedAmount ∧
        (4/5 ≤ (processWithAI ai).confidenceScore → db'.credits = db.credits ++
          [creditEntryFor u db.nextId s.claimedAmount
            ("Credit for " ++ assistanceTypeStr (processWithAI ai).assistanceType)
            now]) ∧
        (¬4/5 ≤ (processWithAI ai).confidenceScore → s.status = .PENDING ∧
          db'.credits = db.credits ∧ s ∈ adminPendingFilter db')) := by
  constructor
  · intro db u ot t amt conf now db' s hok
    have hcond : 0 ≤ amt ∧ 0 ≤ conf ∧ conf ≤ 1 := by
      by_contra hc
      rw [submitProcessedOp, if_neg hc] at hok
      exact absurd hok (by simp)
    cases hpg : pgAmount amt with
    | none =>
        rw [submitProcessedOp, if_pos hcond, hpg] at hok
        exact absurd hok (by simp)
    | some cl =>
        rw [submitProcessedOp_char db u ot t amt conf now cl hcond hpg] at hok
        simp only [Except.ok.injEq, Prod.mk.injEq] at hok
        obtain ⟨hdb, hsv⟩ := hok
        subst hdb
        subst hsv
        by_cases hc : 4/5 ≤ conf
        · have hd : decideStatus conf = CreditStatus.APPROVED := by
            rw [decideStatus, if_pos hc]
          refine ⟨by simp [hd, hc], rfl, fun _ => by simp [hd],
            fun hcon => absurd hc hcon⟩
        · have hd : decideStatus conf = CreditStatus.PENDING := by
            rw [decideStatus, if_neg hc]
          refine ⟨by simp [hd, hc], rfl,
            fun hcc => absurd hcc hc, fun _ => ?_⟩
          refine ⟨by simp [hd], by simp [hd], ?_⟩
          simp [adminPendingFilter, hd]
          exact Or.inr (Or.inl rfl)
  · intro db u raw ai now db' s hok
    have hcond : 10 ≤ (jsTrim raw).length ∧ (jsTrim raw).length ≤ 1000 := by
      by_contra hc
      rw [submitOp, if_neg hc] at hok
      exact absurd hok (by simp)
    cases hpg : pgAmount (processWithAI ai).estimatedCredit with
    | none =>
        rw [submitOp, if_pos hcond, hpg] at hok
        exact absurd hok (by simp)
    | some cl =>
        rw [submitOp_char db u raw ai now cl hcond hpg] at hok
        simp only [Except.ok.injEq, Prod.mk.injEq] at hok
        obtain ⟨hdb, hsv⟩ := hok
        subst hdb
        subst hsv
        by_cases hc : 4/5 ≤ (processWithAI ai).confidenceScore
        · have hd : decideStatus (processWithAI ai).confidenceScore =
              CreditStatus.APPROVED := by
            rw [decideStatus, if_pos hc]
          refine ⟨by simp [hd, hc], rfl, fun _ => by simp [hd],
            fun hcon => absurd hc hcon⟩
        · have hd : decideStatus (processWithAI ai).confidenceScore =
              CreditStatus.PENDING := by
            rw [decideStatus, if_neg hc]
          refine ⟨by simp [hd, hc], rfl,
            fun hcc => absurd hcc hc, fun _ => ?_⟩
          refine ⟨by simp [hd], by simp [hd], ?_⟩
          simp [adminPendingFilter, hd]
          exact Or.inr (Or.inl rfl)

/-- Claim C2 witness: the pending sample call instantiates the amended
rule. -/
theorem decision_rule_confidence_only_witness :
    (sP.status = .APPROVED ↔ 4/5 ≤ (1/2 : ℚ)) ∧
    pgAmount 7 = some sP.claimedAmount ∧
    (4/5 ≤ (1/2 : ℚ) → dbP.credits = emptyDB.credits ++
      [creditEntryFor 2 emptyDB.nextId sP.claimedAmount
        ("Voice credit for " ++ assistanceTypeStr .assistance) 3]) ∧
    (¬4/5 ≤ (1/2 : ℚ) → sP.status = .PENDING ∧ dbP.credits = emptyDB.credits ∧
      sP ∈ adminPendingFilter dbP) :=
  decision_rule_confidence_only.1 emptyDB 2 none .assistance 7 (1/2) 3 dbP sP
    stepP

/-- Claim C6 counterexample: a 10,000,000-dollar client amount with
confidence 0.9 is not auto-approved and produces no ledger entry: the
DECIMAL(8,2) claimed-amount column overflows, the route catches the
database error and returns its 500, and no row of any kind is created —
refuting the claim for arbitrary non-negative amounts. -/
theorem huge_amount_overflows_no_approval :
    submitProcessedOp emptyDB 1 none .consultation 10000000 (9/10) 0 =
      .error ⟨"Failed to process voice credit submission", 500⟩ := by
  rw [submitProcessedOp, if_pos (by norm_num),
    pgAmount_none 10000000 1000000000 (by norm_num) (by norm_num) (by norm_num)]

/-- Claim C6 amended: for every cent-precision client amount within the
DECIMAL(8,2) column bound (999,999.99), a submit-processed call with
confidence at least 0.8 is auto-approved and the ledger row stores the
client-supplied amount exactly: no recomputation from category or sale
value and no cap below the column bound on this path.  Beyond the bound
the insert overflows and the call fails with the route 500; sub-cent
amounts are stored cent-rounded. -/
theorem submit_processed_trusts_client_amount :
    ∀ db u ot t amt conf now, 0 ≤ amt → 4/5 ≤ conf → conf ≤ 1 →
      roundCents amt = amt → amt ≤ decimal82Max →
      statusOf (submitProcessedOp db u ot t amt conf now) = some .APPROVED ∧
      creditsOf (submitProcessedOp db u ot t amt conf now) =
        some (db.credits ++ [creditEntryFor u db.nextId amt
          ("Voice credit for " ++ assistanceTypeStr t) now]) ∧
      submissionsOf (submitProcessedOp db u ot t amt conf now) =
        some (db.submissions ++ [⟨db.nextId, u, jsStrOr ot "Voice submission",
          t, conf, amt, none, .APPROVED, none, none, now, none⟩]) := by
  intro db u ot t amt conf now h0 h8 h1 hcent hmax
  have hpg : pgAmount amt = some amt := by
    rw [pgAmount, hcent, if_pos]
    exact ⟨le_trans (by rw [decimal82Max]; norm_num) h0, hmax⟩
  have hd : decideStatus conf = CreditStatus.APPROVED := by
    rw [decideStatus, if_pos h8]
  have hchar := submitProcessedOp_char db u ot t amt conf now amt
    ⟨h0, le_trans (by norm_num) h8, h1⟩ hpg
  rw [hd] at hchar
  rw [hchar]
  refine ⟨by simp [statusOf], by simp [creditsOf], by simp [submissionsOf]⟩

/-- Claim C6 witness: a 999-dollar client amount with confidence exactly
0.8 on the empty store. -/
theorem submit_processed_trusts_client_amount_witness :
    statusOf (submitProcessedOp emptyDB 3 none .problem_solving 999 (4/5) 1) =
      some .APPROVED ∧
    creditsOf (submitProcessedOp emptyDB 3 none .problem_solving 999 (4/5) 1) =
      some (emptyDB.credits ++ [creditEntryFor 3 emptyDB.nextId 999
        ("Voice credit for " ++ assistanceTypeStr .problem_solving) 1]) ∧
    submissionsOf (submitProcessedOp emptyDB 3 none .problem_solving 999 (4/5) 1) =
      some (emptyDB.submissions ++ [⟨emptyDB.nextId, 3,
        jsStrOr none "Voice submission", .problem_solving, 4/5, 999, none,
        .APPROVED, none, none, 1, none⟩]) :=
  submit_processed_trusts_client_amount emptyDB 3 none .problem_solving 999
    (4/5) 1 (by norm_num) (by norm_num) (by norm_num)
    (by rw [roundCents_eq 999 99900 (by norm_num) (by norm_num)]; norm_num)
    (by rw [decimal82Max]; norm_num)

/-- Claim C5: reviewing a claim whose status is terminal fails with the
already-reviewed conflict error before any write (so the claim record
and the ledger are untouched), and in every reachable state each claim
has at most one ledger entry. -/
theorem terminal_review_conflict_single_entry :
    ∀ db rid role id dec ov notes now s, Reach db →
      s ∈ db.submissions → s.id = id →
      (s.status = .APPROVED ∨ s.status = .REJECTED) →
      (role = .ADMIN ∨ role = .STAFF) →
      validReviewBody dec ov notes = true →
      reviewOp db rid role id dec ov notes now =
        .error ⟨"Submission already reviewed", 400⟩ ∧
      ∀ i, (db.credits.filter
        (fun c => decide (c.creditSubmissionId = some i))).length ≤ 1 := by
  intro db rid role id dec ov notes now s hre hs hid hterm hrole hvalid
  have hinv := inv_of_reach db hre
  have ht2 : s.status ≠ CreditStatus.PENDING ∧
      s.status ≠ CreditStatus.UNDER_REVIEW := by
    rcases hterm with h | h <;> rw [h] <;> exact ⟨by simp, by simp⟩
  exact ⟨reviewOp_terminal db rid role id dec ov notes now s hinv.idsNodup hs
    hid ht2 hrole hvalid, hinv.creditOnce⟩

/-- Claim C5 witness: re-reviewing the auto-approved sample claim. -/
theorem terminal_review_conflict_single_entry_witness :
    reviewOp dbA 9 .ADMIN 0 .APPROVED none none 7 =
      .error ⟨"Submission already reviewed", 400⟩ :=
  (terminal_review_conflict_single_entry dbA 9 .ADMIN 0 .APPROVED none none 7 sA
    reachA (by simp [dbA]) rfl (Or.inl rfl) (Or.inl rfl) (by rfl)).1

/-- Claim C10: an explicit override amount of 0 passes validation (the
minimum allowed is 0) but, being falsy to the JavaScript logical-or, is
indistinguishable from no override: the whole review call computes the
same result, and on a PENDING claim both record the originally claimed
amount and write the ledger row for it. -/
theorem zero_override_defaults_to_claimed :
    ∀ db rid role id notes now s,
      (reviewOp db rid role id .APPROVED (some 0) notes now =
        reviewOp db rid role id .APPROVED none notes now) ∧
      (Reach db → s ∈ db.submissions → s.id = id → s.status = .PENDING →
        (role = .ADMIN ∨ role = .STAFF) →
        validReviewBody .APPROVED (some 0) notes = true →
        reviewOp db rid role id .APPROVED (some 0) notes now = .ok
          (⟨db.submissions.map (fun t => if t.id = id then
              { s with status := .APPROVED,
                       approvedAmount := some s.claimedAmount,
                       reviewedBy := some rid, reviewNotes := notes,
                       reviewedAt := some now } else t),
            db.credits ++ [creditEntryFor s.userId s.id s.claimedAmount
              ("Credit for " ++ assistanceTypeStr s.assistanceType ++
                " (reviewed)") now],
            db.nextId⟩,
           { s with status := .APPROVED,
                    approvedAmount := some s.claimedAmount,
                    reviewedBy := some rid, reviewNotes := notes,
                    reviewedAt := some now })) := by
  intro db rid role id notes now s
  constructor
  · simp only [reviewOp, validReviewBody_zero, jsQOr_some_zero, jsQOr_none]
  · intro hre hs hid hp hrole hvalid
    have hinv := inv_of_reach db hre
    have hpa : pgAmount (jsQOr (some 0) s.claimedAmount) = some s.claimedAmount := by
      rw [jsQOr_some_zero]
      exact hinv.claimedStored s hs
    have hchar := reviewOp_ok_char db rid role id .APPROVED (some 0) notes now s
      s.claimedAmount hinv.idsNodup hs hid (Or.inl hp) hrole hvalid hpa
    rw [hchar]
    simp

/-- Claim C10 witness: approving the pending sample claim with an
explicit override of 0. -/
theorem zero_override_defaults_to_claimed_witness :
    reviewOp dbP 9 .ADMIN 0 .APPROVED (some 0) none 4 = .ok
      (⟨dbP.submissions.map (fun t => if t.id = 0 then
          { sP with status := .APPROVED,
                    approvedAmount := some sP.claimedAmount,
                    reviewedBy := some 9, reviewNotes := none,
                    reviewedAt := some 4 } else t),
        dbP.credits ++ [creditEntryFor sP.userId sP.id sP.claimedAmount
          ("Credit for " ++ assistanceTypeStr sP.assistanceType ++
            " (reviewed)") 4],
        dbP.nextId⟩,
       { sP with status := .APPROVED, approvedAmount := some sP.claimedAmount,
                 reviewedBy := some 9, reviewNotes := none,
                 reviewedAt := some 4 }) :=
  (zero_override_defaults_to_claimed dbP 9 .ADMIN 0 none 4 sP).2 reachP
    (by simp [dbP]) rfl rfl (Or.inl rfl)
    (by simp [validReviewBody]; exact Or.inl rfl)

/-- Claim C8: every claim stored by any pipeline path carries a
confidence in the unit interval.  The server calculator clamps 1.4 to
1.0 and -0.2 to 0.1 before storage; the submit-processed validators
reject both out-of-range values outright. -/
theorem confidence_clamped_in_range :
    (∀ db, Reach db → ∀ s ∈ db.submissions,
        0 ≤ s.confidenceScore ∧ s.confidenceScore ≤ 1) ∧
    (processWithAIok ⟨some .consultation, some (14/10), some 45, none⟩).confidenceScore = 1 ∧
    (processWithAIok ⟨some .consultation, some (-(2/10)), some 45, none⟩).confidenceScore = 1/10 ∧
    (∀ db u ot t amt now, submitProcessedOp db u ot t amt (14/10) now =
      .error ⟨"Validation failed", 400⟩) ∧
    (∀ db u ot t amt now, submitProcessedOp db u ot t amt (-(2/10)) now =
      .error ⟨"Validation failed", 400⟩) := by
  refine ⟨fun db h => (inv_of_reach db h).confRange, ?_, ?_, ?_, ?_⟩
  · simp only [processWithAIok, jsQOr]
    norm_num [min_def, max_def]
  · simp only [processWithAIok, jsQOr]
    norm_num [min_def, max_def]
  · intro db u ot t amt now
    rw [submitProcessedOp, if_neg]
    intro h
    have h2 := h.2.2
    norm_num at h2
  · intro db u ot t amt now
    rw [submitProcessedOp, if_neg]
    intro h
    have h2 := h.2.1
    norm_num at h2

/-- Claim C8 witness: the stored confidence of the approved sample claim
is in range, and a submit-processed call with confidence 1.4 is
rejected. -/
theorem confidence_clamped_in_range_witness :
    (0 ≤ sA.confidenceScore ∧ sA.confidenceScore ≤ 1) ∧
    submitProcessedOp emptyDB 1 none .recommendation 0 (14/10) 0 =
      .error ⟨"Validation failed", 400⟩ :=
  ⟨confidence_clamped_in_range.1 dbA reachA sA (by simp [dbA]),
   confidence_clamped_in_range.2.2.2.1 emptyDB 1 none .recommendation 0 0⟩

/-- Claim C7: the balance route returns exactly the read-time sum of the
member's non-redeemed, non-expired entries; the balance is a function of
the ledger alone (there is no stored counter to read), and every
state-changing operation only appends to the ledger, never updating an
existing row. -/
theorem balance_is_derived_sum :
    (∀ db u now, (balanceOp db u now).availableBalance =
        specAvailableBalance db.credits u now) ∧
    (∀ db1 db2 u now, db1.credits = db2.credits →
        balanceOp db1 u now = balanceOp db2 u now) ∧
    (∀ db u raw ai now db' s, submitOp db u raw ai now = .ok (db', s) →
        ∃ tail, db'.credits = db.credits ++ tail) ∧
    (∀ db u ot t amt conf now,
        ∀ db' s, submitProcessedOp db u ot t amt conf now = .ok (db', s) →
        ∃ tail, db'.credits = db.credits ++ tail) ∧
    (∀ db rid role id dec ov notes now,
        ∀ db' s, reviewOp db rid role id dec ov notes now = .ok (db', s) →
        ∃ tail, db'.credits = db.credits ++ tail) := by
  refine ⟨?_, ?_, ?_, ?_, ?_⟩
  · intro db u now
    simp only [balanceOp, specAvailableBalance]
    rw [List.filter_congr (fun c _ => eligible_iff u now c), foldl_amount]
    simp
  · intro db1 db2 u now h
    simp only [balanceOp, h]
  · intro db u raw ai now db' s hok
    simp only [submitOp] at hok
    split at hok
    · split at hok
      · exact absurd hok (by simp)
      simp only [Except.ok.injEq] at hok
      have hdb := congrArg Prod.fst hok
      simp only [createSubmission] at hdb
      exact ⟨_, by rw [← hdb]⟩
    · exact absurd hok (by simp)
  · intro db u ot t amt conf now db' s hok
    simp only [submitProcessedOp] at hok
    split at hok
    · split at hok
      · exact absurd hok (by simp)
      simp only [Except.ok.injEq] at hok
      have hdb := congrArg Prod.fst hok
      simp only [createSubmission] at hdb
      exact ⟨_, by rw [← hdb]⟩
    · exact absurd hok (by simp)
  · intro db rid role id dec ov notes now db' s hok
    simp only [reviewOp] at hok
    split at hok
    · exact absurd hok (by simp)
    split at hok
    · exact absurd hok (by simp)
    split at hok
    · exact absurd hok (by simp)
    rename_i s2 hfind
    split at hok
    · exact absurd hok (by simp)
    split at hok
    · exact absurd hok (by simp)
    simp only [Except.ok.injEq, Prod.mk.injEq] at hok
    obtain ⟨hdb, -⟩ := hok
    exact ⟨_, by rw [← hdb]⟩

/-- Claim C7 witness: the balance of the approved sample state, and the
append-only shape of the step that built it. -/
theorem balance_is_derived_sum_witness :
    ((balanceOp dbA 1 5).availableBalance =
      specAvailableBalance dbA.credits 1 5) ∧
    (∃ tail, dbA.credits = emptyDB.credits ++ tail) :=
  ⟨balance_is_derived_sum.1 dbA 1 5,
   balance_is_derived_sum.2.2.2.1 emptyDB 1 none .consultation 10 (9/10) 0
     dbA sA stepA⟩

/-- First submission of the duplicate scenario: the AI call fails, the
fallback fields are stored, the claim is PENDING. -/
lemma stepD1 : submitOp emptyDB 1 rawDup (Except.error "service down") 0 =
    .ok (dbD1, sD1) := by
  rw [submitOp_char emptyDB 1 rawDup (Except.error "service down") 0 1
    (by decide) pg_one]
  have hfall : processWithAI (Except.error "service down") = aiFallback := rfl
  rw [hfall]
  simp only [aiFallback]
  have hd : decideStatus (3/10) = CreditStatus.PENDING := by
    rw [decideStatus, if_neg]
    norm_num
  rw [hd]
  simp [emptyDB, dbD1, sD1]

/-- The identical retried submission also succeeds and creates a second
claim. -/
lemma stepD2 : submitOp dbD1 1 rawDup (Except.error "service down") 0 =
    .ok (dbD2, sD2) := by
  rw [submitOp_char dbD1 1 rawDup (Except.error "service down") 0 1
    (by decide) pg_one]
  have hfall : processWithAI (Except.error "service down") = aiFallback := rfl
  rw [hfall]
  simp only [aiFallback]
  have hd : decideStatus (3/10) = CreditStatus.PENDING := by
    rw [decideStatus, if_neg]
    norm_num
  rw [hd]
  simp [dbD1, dbD2, sD1, sD2]

/-- Claim C3 counterexample: two submissions with identical text from
the same submitter at the same instant both succeed — the second does
not fail with a conflict error — and afterwards two claims exist; the
submit route computes no fingerprint and performs no deduplication. -/
theorem duplicate_submission_not_rejected :
    submitOp emptyDB 1 rawDup (Except.error "service down") 0 =
      .ok (dbD1, sD1) ∧
    submitOp dbD1 1 rawDup (Except.error "service down") 0 =
      .ok (dbD2, sD2) ∧
    dbD2.submissions.length = 2 := by
  exact ⟨stepD1, stepD2, by simp [dbD2]⟩

/-- Claim C3 amended: whenever a submission succeeds, resubmitting the
identical input from the same submitter (at any later time, however
close) succeeds as well and creates a further claim: afterwards the
store holds two more claims than before the pair. -/
theorem resubmission_always_creates_second_claim :
    ∀ db u raw ai now1 now2 db1 s1,
      submitOp db u raw ai now1 = .ok (db1, s1) →
      ∃ db2 s2, submitOp db1 u raw ai now2 = .ok (db2, s2) ∧
        db2.submissions.length = db.submissions.length + 2 := by
  intro db u raw ai now1 now2 db1 s1 h1
  have hcond : 10 ≤ (jsTrim raw).length ∧ (jsTrim raw).length ≤ 1000 := by
    by_contra hc
    rw [submitOp, if_neg hc] at h1
    exact absurd h1 (by simp)
  cases hpg : pgAmount (processWithAI ai).estimatedCredit with
  | none =>
      rw [submitOp, if_pos hcond, hpg] at h1
      exact absurd h1 (by simp)
  | some cl =>
      rw [submitOp_char db u raw ai now1 cl hcond hpg] at h1
      simp only [Except.ok.injEq, Prod.mk.injEq] at h1
      obtain ⟨hdb1, -⟩ := h1
      refine ⟨_, _, submitOp_char db1 u raw ai now2 cl hcond hpg, ?_⟩
      simp only [← hdb1, List.length_append, List.length_cons, List.length_nil]

/-- Claim C3 witness: retrying the concrete duplicate scenario. -/
theorem resubmission_always_creates_second_claim_witness :
    ∃ db2 s2, submitOp dbD1 1 rawDup (Except.error "service down") 7 =
      .ok (db2, s2) ∧
      db2.submissions.length = emptyDB.submissions.length + 2 :=
  resubmission_always_creates_second_claim emptyDB 1 rawDup
    (Except.error "service down") 0 7 dbD1 sD1 stepD1

/-- Claim C4 counterexample: the fallback the voice adapter returns on
an external failure has needsFollowUp set to false, not true as the
claim states. -/
theorem voice_fallback_needs_no_followup :
    ¬((processVoiceInput (Except.error "timeout")).needsFollowUp = true) := by
  simp [processVoiceInput, voiceFallback]

/-- Claim C4 amended: on every external-service error the voice adapter
returns the fixed fallback — category recommendation, the low fixed
confidence 0.3, credit 1 — whose conversational reply is a generic
clarification question but whose needsFollowUp flag is false; the AI
submit adapter likewise returns its fixed fallback (which has no
follow-up field at all).  Both adapters are total functions of the
external outcome, so no failure propagates and the pipeline always
completes a decision. -/
theorem extraction_fallback_deterministic :
    (∀ e, processVoiceInput (Except.error e) = voiceFallback) ∧
    voiceFallback.assistanceType = .recommendation ∧
    voiceFallback.confidenceScore = 3/10 ∧
    voiceFallback.estimatedCredit = 1 ∧
    voiceFallback.needsFollowUp = false ∧
    strHasChar voiceFallback.conversationalResponse ('?') = true ∧
    (∀ e, processWithAI (Except.error e) = aiFallback) ∧
    aiFallback.assistanceType = .recommendation ∧
    aiFallback.confidenceScore = 3/10 ∧
    aiFallback.estimatedCredit = 1 := by
  exact ⟨fun e => rfl, rfl, rfl, rfl, rfl, by decide, fun e => rfl, rfl, rfl,
    rfl⟩

/-- Claim C4 witness: both adapters at a concrete timeout. -/
theorem extraction_fallback_deterministic_witness :
    processVoiceInput (Except.error "timeout") = voiceFallback ∧
    processWithAI (Except.error "network") = aiFallback :=
  ⟨extraction_fallback_deterministic.1 "timeout",
   extraction_fallback_deterministic.2.2.2.2.2.2.1 "network"⟩

/-- Claim C1 counterexample: for scenario B (sale 45, consultation,
first-time customer, premium tier) the manual-form calculator returns
8.42 dollars, not 8.00: the confidence of 0.95 never scales the manual
amount. -/
theorem manual_calc_scenarioB_not_eight :
    calculateEstimatedCredit .consultation .new .PREMIUM 45 = 842/100 ∧
    (842/100 : ℚ) ≠ 8 := by
  constructor
  · have hv : ¬(MemberTier.PREMIUM = MemberTier.VIP) := by decide
    simp only [calculateEstimatedCredit, rate, customerMultiplier, if_neg hv]
    norm_num
    rw [roundCents_eq _ 842 (by norm_num) (by norm_num)]
    norm_num [min_def]
  · norm_num

/-- Claim C1 amended: the manual-form calculator returns 8.42 dollars
for scenario B — base 45 times 0.12 is 5.40, times the first-time
multiplier 1.3, times the premium multiplier 1.2, giving 8.424, rounded
once at the end to 8.42 (and capped at 100); the tier and customer
modifiers do compose multiplicatively, but the confidence of 0.95 is
stored without scaling the manual amount.  The server AI calculator,
which has no customer or tier modifiers at all, returns 5.13 for the
same sale with confidence 0.95. -/
theorem manual_calc_scenarioB_amount :
    calculateEstimatedCredit .consultation .new .PREMIUM 45 = 842/100 ∧
    (processWithAIok scenarioBData).estimatedCredit = 513/100 ∧
    (processWithAIok scenarioBData).confidenceScore = 95/100 := by
  refine ⟨?_, ?_, ?_⟩
  · have hv : ¬(MemberTier.PREMIUM = MemberTier.VIP) := by decide
    simp only [calculateEstimatedCredit, rate, customerMultiplier, if_neg hv]
    norm_num
    rw [roundCents_eq _ 842 (by norm_num) (by norm_num)]
    norm_num [min_def]
  · simp only [processWithAIok, scenarioBData, Option.getD, jsQOr, rate]
    norm_num [min_def, max_def]
    rw [roundCents_eq _ 513 (by norm_num) (by norm_num)]
    norm_num
  · simp only [processWithAIok, scenarioBData, Option.getD, jsQOr]
    norm_num [min_def, max_def]

end HTCredit
